import Mathlib

/-!
Shallow embedding of `src/magnit_parser.py` (classes `MagnitAPI` and
`MagnitParser`).

Network effects are modelled by passing the server's behaviour as explicit
functions: a page server `Nat → Except Err Page` gives the response to the
k-th search request of `fetch_goods_by_category`, and a detail fetcher
`Item → Except Err DetailData` gives the outcome (HTTP + JSON parsing) of
the per-item detail request issued by `_fetch_brand`.  Python exceptions
become `Except` errors; `None`-able values become `Option`; Python `dict`
payloads become structures with `Option` fields where the code uses `.get`.
Prices are integers in minor units (spec §3); `round(value / 100, 2)` is
modelled in `ℚ` as exact division by 100, which is its own rounding to two
decimal places for an integer input.
-/

/-- Error values carried by Python exceptions (aiohttp/transport/JSON). -/
abbrev Err := String

/-- The `promotion` object of a listing: `oldPrice` and `discountPercent`
are optional integer fields read with `.get` (lines 94, 98). -/
structure Promotion where
  oldPrice : Option Int
  discountPercent : Option Int
deriving DecidableEq, Repr

/-- A raw listing item as used by `_fetch_brand` (lines 90-100): fields
`id`, `name`, `price`, `promotion` accessed with `[...]`. -/
structure Item where
  id : String
  name : String
  price : Int
  promotion : Promotion
deriving DecidableEq, Repr

/-- One `{name, parameters: [{name, value}]}` parameter pair of a detail
section; both fields are read with `.get` (lines 88-89), hence optional. -/
structure ParamKV where
  name : Option String
  value : Option String
deriving DecidableEq, Repr

/-- One entry of the `details` list of a detail response (lines 85-87). -/
structure DetailSection where
  name : Option String
  parameters : List ParamKV
deriving DecidableEq, Repr

/-- The parsed JSON body of a successful detail request:
`data.get("details", [])` (line 85); a missing key yields `[]`. -/
structure DetailData where
  details : List DetailSection
deriving DecidableEq, Repr

/-- The normalized record built by `_fetch_brand` (lines 90-102). -/
structure Record where
  id : String
  name : String
  regular_price : Option ℚ
  promo_price : Option ℚ
  brand : String
deriving DecidableEq, Repr

/-- Python `x or y` on an optional integer `x` (`dict.get` result): `y`
when `x` is `None` or the falsy integer `0`, else the value of `x`.
Embeds `item["promotion"].get("oldPrice") or item["price"]` (line 94). -/
def pyOrInt (x : Option Int) (y : Int) : Int :=
  match x with
  | none => y
  | some v => if v = 0 then y else v

/-- Python truthiness of an optional integer: `False` for `None` and `0`.
Embeds `if item["promotion"].get("discountPercent")` (line 98). -/
def pyTruthyInt (x : Option Int) : Bool :=
  match x with
  | none => false
  | some v => v != 0

/-- `MagnitAPI._format_price` (lines 106-107): `round(value / 100, 2)` for
a present value, `None` otherwise.  For an integer number of minor units
the quotient has at most two decimal places, so rounding it to two decimal
places is the identity and the result is exactly `value / 100` in `ℚ`. -/
def format_price (value : Option Int) : Option ℚ :=
  match value with
  | none => none
  | some v => some ((v : ℚ) / 100)

/-- Inner loop of the brand scan (lines 87-89): for each parameter pair
whose `name` equals `"Бренд"`, the running `brand` variable is overwritten
with `param.get("value")` (which may be `None`). -/
def scanParams (ps : List ParamKV) (brand : Option String) : Option String :=
  ps.foldl (fun b p => if p.name = some "Бренд" then p.value else b) brand

/-- Outer loop of the brand scan (lines 85-89): every detail section named
`"Характеристики"` has its parameters scanned; the variable starts as the
string `""` (line 84). -/
def scanDetails (ds : List DetailSection) : Option String :=
  ds.foldl
    (fun b d => if d.name = some "Характеристики" then scanParams d.parameters b else b)
    (some "")

/-- The final `brand or ""` of line 101: a `None` (and the falsy `""`)
collapse to `""`.  Since the scan starts from `""`, this is `getD ""`. -/
def extractBrand (d : DetailData) : String :=
  (scanDetails d.details).getD ""

/-- The record literal of lines 90-102, given the parsed detail body. -/
def buildRecord (item : Item) (d : DetailData) : Record :=
  { id := item.id
    name := item.name
    regular_price := format_price (some (pyOrInt item.promotion.oldPrice item.price))
    promo_price :=
      if pyTruthyInt item.promotion.discountPercent then format_price (some item.price)
      else none
    brand := extractBrand d }

/-- `MagnitAPI._fetch_brand` (lines 70-104): one detail request per item;
`fetchDetail` bundles the GET, `raise_for_status` and `response.json()` of
lines 81-83.  Any exception in the `try` block — transport, non-success
status, malformed payload — is caught on line 103 and turned into `None`,
so the item is dropped.  (The semaphore of line 73 only schedules the
request; it does not change the per-item result and is modelled separately
as a transition system below.) -/
def fetch_brand (fetchDetail : Item → Except Err DetailData) (item : Item) :
    Option Record :=
  match fetchDetail item with
  | .error _ => none
  | .ok d => some (buildRecord item d)

/-- `MagnitAPI._enrich_goods_with_brands` (lines 61-68): one task per item,
`asyncio.gather` returns the per-task results in task-submission order,
and the comprehension on line 67 keeps the non-`None` results. -/
def enrich_goods_with_brands (fetchDetail : Item → Except Err DetailData)
    (items : List Item) : List Record :=
  ((items.map (fetch_brand fetchDetail)).reduceOption)

/-- One page of the search response: `data.get("items", [])` and
`data.get("pagination", {}).get("hasMore")` (lines 52, 54); a missing or
`null` continuation flag is falsy, hence modelled as `hasMore = false`. -/
structure Page where
  items : List Item
  hasMore : Bool
deriving DecidableEq, Repr

/-- The pagination loop of `fetch_goods_by_category` (lines 31-57).
`server k` is the response to the k-th POST of line 49: an exception or
non-success status (`raise_for_status`, line 50) is `Except.error` and
aborts the whole fetch; otherwise the page's items are appended and the
loop stops unless `hasMore` is truthy, in which case `offset += limit`.
The `while True` loop is given explicit fuel; `none` means the loop is
still running after `fuel` requests.  The result carries the accumulated
items together with the list of offsets actually requested. -/
def fetchGoodsLoop (server : Nat → Except Err Page) (limit : Nat) :
    Nat → Nat → Nat → Option (Except Err (List Item × List Nat))
  | 0, _, _ => none
  | fuel + 1, k, offset =>
    match server k with
    | .error e => some (.error e)
    | .ok page =>
      if page.hasMore then
        match fetchGoodsLoop server limit fuel (k + 1) (offset + limit) with
        | none => none
        | some (.error e) => some (.error e)
        | some (.ok (its, offs)) => some (.ok (page.items ++ its, offset :: offs))
      else
        some (.ok (page.items, [offset]))

/-- `MagnitAPI.fetch_goods_by_category` (lines 31-59): run the pagination
loop with `offset = 0`, `limit = 50` (lines 32-33), then enrich the
accumulated items (line 59).  A page failure propagates; per-item failures
do not.  The offset trace is kept alongside the records. -/
def fetch_goods_by_category (server : Nat → Except Err Page)
    (fetchDetail : Item → Except Err DetailData) (fuel : Nat) :
    Option (Except Err (List Record × List Nat)) :=
  match fetchGoodsLoop server 50 fuel 0 0 with
  | none => none
  | some (.error e) => some (.error e)
  | some (.ok (items, offs)) =>
    some (.ok (enrich_goods_with_brands fetchDetail items, offs))

/-- `asyncio.Semaphore.__init__` as called on line 29: the standard
library raises `ValueError("Semaphore initial value must be >= 0")` when
the initial value is negative and otherwise stores it; a zero value is
accepted (every `acquire` then blocks). -/
def semaphoreNew (value : Int) : Except Err Nat :=
  if value < 0 then .error "Semaphore initial value must be >= 0"
  else .ok value.toNat

/-- The state a `MagnitAPI` instance holds after `__init__` (lines 24-29):
store code, city id, and the semaphore's slot count. -/
structure MagnitAPIState where
  store_code : String
  city_id : String
  semValue : Nat
deriving DecidableEq, Repr

/-- `MagnitAPI.__init__` (lines 24-29): purely stores the configuration
and builds the semaphore; no network activity happens here, and the only
failure is the one `asyncio.Semaphore` raises. -/
def magnitAPINew (store_code : String) (city_id : String)
    (max_concurrent_requests : Int) : Except Err MagnitAPIState :=
  match semaphoreNew max_concurrent_requests with
  | .error e => .error e
  | .ok n => .ok { store_code := store_code, city_id := city_id, semValue := n }

/-!
Concurrency model of one `_enrich_goods_with_brands` call.  Each item task
runs `_fetch_brand`, whose whole body sits inside `async with
self.semaphore` (line 73): a task's detail request starts only after the
task acquires a semaphore slot, and the slot is released exactly when the
task's body finishes (with a record or with the caught exception).  The
event-loop interleaving is a transition system: a pending task may start
when a slot is free; an in-flight task may finish, returning its slot.
-/

/-- The phase of one item task of an enrichment batch. -/
inductive Phase
  | pending
  | inflight
  | done
deriving DecidableEq, Repr

/-- A scheduler state: free semaphore slots plus the phase of each task. -/
structure EnrichState where
  avail : Nat
  tasks : List Phase
deriving DecidableEq, Repr

/-- Number of in-flight tasks in a phase list. -/
def countInflight (l : List Phase) : Nat :=
  (l.filter (fun p => p = Phase.inflight)).length

/-- Number of detail requests simultaneously in flight. -/
def inflightCount (s : EnrichState) : Nat :=
  countInflight s.tasks

/-- One scheduling step of the event loop during an enrichment batch:
`acquireStart` is a task entering `async with self.semaphore` (line 73)
and issuing its request — possible only while a slot is free; `finish` is
an in-flight task completing (success or caught failure, lines 90-104) and
releasing its slot on exit of the `async with` block. -/
inductive EnrichStep : EnrichState → EnrichState → Prop
  | acquireStart (s : EnrichState) (i : Nat)
      (hp : s.tasks.get? i = some Phase.pending) (ha : 0 < s.avail) :
      EnrichStep s ⟨s.avail - 1, s.tasks.set i Phase.inflight⟩
  | finish (s : EnrichState) (i : Nat)
      (hp : s.tasks.get? i = some Phase.inflight) :
      EnrichStep s ⟨s.avail + 1, s.tasks.set i Phase.done⟩

/-- States reachable from a given initial state by scheduling steps. -/
inductive EnrichReach (init : EnrichState) : EnrichState → Prop
  | refl : EnrichReach init init
  | tail {s t : EnrichState} : EnrichReach init s → EnrichStep s t →
      EnrichReach init t

/-- Initial state of a batch: the semaphore holds `maxConcurrent` free
slots (line 29) and each of the `numTasks` items has a pending task
(line 64). -/
def enrichInit (maxConcurrent : Nat) (numTasks : Nat) : EnrichState :=
  ⟨maxConcurrent, List.replicate numTasks Phase.pending⟩

/-- `MagnitParser.run` (lines 141-144): awaits the category fetch and hands
the goods to the exporter; an exception from the fetch propagates to the
caller of `run` (nothing catches it).  The CSV write is out of core scope;
the model returns what would be handed to the exporter. -/
def magnitParserRun (server : Nat → Except Err Page)
    (fetchDetail : Item → Except Err DetailData) (fuel : Nat) :
    Option (Except Err (List Record)) :=
  match fetch_goods_by_category server fetchDetail fuel with
  | none => none
  | some (.error e) => some (.error e)
  | some (.ok (records, _)) => some (.ok records)

/-! ## Helper lemmas -/

/-- `_enrich_goods_with_brands` is exactly a `filterMap` of `_fetch_brand`
over the input items. -/
theorem enrich_eq_filterMap (fetchDetail : Item → Except Err DetailData)
    (items : List Item) :
    enrich_goods_with_brands fetchDetail items =
      items.filterMap (fetch_brand fetchDetail) := by
  simp [enrich_goods_with_brands, List.reduceOption, List.filterMap_map]

/-- The brand scan leaves the running variable unchanged over parameters
none of which is named `"Бренд"`. -/
theorem scanParams_no_match (ps : List ParamKV) (b : Option String)
    (h : ∀ p ∈ ps, p.name ≠ some "Бренд") : scanParams ps b = b := by
  induction ps generalizing b with
  | nil => rfl
  | cons p ps ih =>
    have hp : p.name ≠ some "Бренд" := h p (by simp)
    simp only [scanParams, List.foldl_cons, if_neg hp]
    exact ih b fun q hq => h q (by simp [hq])

/-- When no `"Характеристики"` section holds a `"Бренд"` parameter, the
whole scan returns its initial value `""`. -/
theorem scanDetails_no_match (ds : List DetailSection)
    (h : ∀ s ∈ ds, s.name = some "Характеристики" →
      ∀ p ∈ s.parameters, p.name ≠ some "Бренд") :
    scanDetails ds = some "" := by
  suffices hgen : ∀ b : Option String,
      ds.foldl (fun b d =>
        if d.name = some "Характеристики" then scanParams d.parameters b else b) b = b by
    exact hgen (some "")
  intro b
  induction ds generalizing b with
  | nil => rfl
  | cons d ds ih =>
    simp only [List.foldl_cons]
    by_cases hd : d.name = some "Характеристики"
    · rw [if_pos hd, scanParams_no_match d.parameters b (h d (by simp) hd)]
      exact ih (fun s hs => h s (by simp [hs])) b
    · rw [if_neg hd]
      exact ih (fun s hs => h s (by simp [hs])) b

/-! ## Concrete inputs used in counterexamples and witnesses -/

/-- A listing whose promotion carries `discountPercent = 0` — present in
the JSON but falsy in Python. -/
def itemZeroDiscount : Item :=
  { id := "1", name := "Milk", price := 1000,
    promotion := { oldPrice := none, discountPercent := some 0 } }

/-- A listing whose promotion carries `oldPrice = 0` — present in the
JSON but falsy in Python. -/
def itemZeroOldPrice : Item :=
  { id := "2", name := "Milk", price := 1000,
    promotion := { oldPrice := some 0, discountPercent := none } }

/-- A listing with a plain nonzero discount. -/
def itemWithDiscount : Item :=
  { id := "3", name := "Milk", price := 1000,
    promotion := { oldPrice := some 2500, discountPercent := some 10 } }

/-- A detail response with no sections at all. -/
def emptyDetail : DetailData := { details := [] }

/-! ## C3 — promo price -/

/-- C3 counterexample: the claim says a present `discountPercent` always
yields `promo_price = price / 100`; but `if item["promotion"].get("discountPercent")`
(line 98) tests Python truthiness, so the present value `0` yields no
`promo_price` at all. -/
theorem c3_counterexample :
    (itemZeroDiscount.promotion.discountPercent).isSome = true ∧
    (buildRecord itemZeroDiscount emptyDetail).promo_price = none ∧
    (buildRecord itemZeroDiscount emptyDetail).promo_price ≠
      some ((itemZeroDiscount.price : ℚ) / 100) := by
  refine ⟨rfl, rfl, ?_⟩
  intro h
  simp [buildRecord, itemZeroDiscount, pyTruthyInt] at h

/-- C3 (amended): a record built from a listing has no `promo_price` when
`discountPercent` is absent or equals `0`, and has
`promo_price = price / 100` (already exact to 2 decimal places) when
`discountPercent` is present and nonzero. -/
theorem c3_promo_price (item : Item) (d : DetailData) :
    (item.promotion.discountPercent = none →
      (buildRecord item d).promo_price = none) ∧
    (item.promotion.discountPercent = some 0 →
      (buildRecord item d).promo_price = none) ∧
    (∀ dp : Int, item.promotion.discountPercent = some dp → dp ≠ 0 →
      (buildRecord item d).promo_price = some ((item.price : ℚ) / 100)) := by
  refine ⟨fun h => ?_, fun h => ?_, fun dp h hdp => ?_⟩
  · simp [buildRecord, pyTruthyInt, format_price, h]
  · simp [buildRecord, pyTruthyInt, format_price, h]
  · simp [buildRecord, pyTruthyInt, format_price, h, hdp]

/-- Witness for C3: evaluating the amended statement on the concrete
listing with `discountPercent = 10`. -/
theorem c3_promo_price_witness :
    (buildRecord itemWithDiscount emptyDetail).promo_price =
      some ((itemWithDiscount.price : ℚ) / 100) :=
  (c3_promo_price itemWithDiscount emptyDetail).2.2 10 rfl (by decide)

/-! ## C4 — regular price -/

/-- C4 counterexample: the claim says a present `oldPrice` is always the
one used; but `item["promotion"].get("oldPrice") or item["price"]`
(line 94) falls through to `price` when the present `oldPrice` is the
falsy integer `0`. -/
theorem c4_counterexample :
    itemZeroOldPrice.promotion.oldPrice = some 0 ∧
    (buildRecord itemZeroOldPrice emptyDetail).regular_price =
      some ((itemZeroOldPrice.price : ℚ) / 100) ∧
    (buildRecord itemZeroOldPrice emptyDetail).regular_price ≠
      some ((0 : ℚ) / 100) := by
  refine ⟨rfl, rfl, ?_⟩
  intro h
  simp [buildRecord, itemZeroOldPrice, pyOrInt, format_price] at h

/-- C4 (amended): `regular_price` equals `oldPrice / 100` whenever
`oldPrice` is present and nonzero, and `price / 100` otherwise — also
when `oldPrice` is present but equal to `0`, because Python's `or` treats
`0` as absent. -/
theorem c4_regular_price (item : Item) (d : DetailData) :
    (∀ v : Int, item.promotion.oldPrice = some v → v ≠ 0 →
      (buildRecord item d).regular_price = some ((v : ℚ) / 100)) ∧
    (item.promotion.oldPrice = none →
      (buildRecord item d).regular_price = some ((item.price : ℚ) / 100)) ∧
    (item.promotion.oldPrice = some 0 →
      (buildRecord item d).regular_price = some ((item.price : ℚ) / 100)) := by
  refine ⟨fun v h hv => ?_, fun h => ?_, fun h => ?_⟩
  · simp [buildRecord, pyOrInt, format_price, h, hv]
  · simp [buildRecord, pyOrInt, format_price, h]
  · simp [buildRecord, pyOrInt, format_price, h]

/-- Witness for C4: evaluating the amended statement on the concrete
listing with `oldPrice = 2500`. -/
theorem c4_regular_price_witness :
    (buildRecord itemWithDiscount emptyDetail).regular_price =
      some ((2500 : ℚ) / 100) :=
  (c4_regular_price itemWithDiscount emptyDetail).1 2500 rfl (by decide)

/-! ## C6 — brand default -/

/-- C6: a detail response with no `"Характеристики"` section, or none of
whose `"Характеристики"` sections holds a `"Бренд"` parameter, yields
`brand = ""`, and the item is still enriched and kept (the per-item fetch
returns a record, not `None`). -/
theorem c6_brand_default (d : DetailData) (item : Item)
    (h : ∀ s ∈ d.details, s.name = some "Характеристики" →
      ∀ p ∈ s.parameters, p.name ≠ some "Бренд") :
    fetch_brand (fun _ => .ok d) item = some (buildRecord item d) ∧
    (buildRecord item d).brand = "" := by
  refine ⟨rfl, ?_⟩
  simp [buildRecord, extractBrand, scanDetails_no_match d.details h]

/-- Witness for C6: a detail response whose only section is not named
`"Характеристики"`. -/
theorem c6_brand_default_witness :
    fetch_brand
      (fun _ => .ok { details := [{ name := some "Описание", parameters := [] }] })
      itemWithDiscount =
      some (buildRecord itemWithDiscount
        { details := [{ name := some "Описание", parameters := [] }] }) ∧
    (buildRecord itemWithDiscount
      { details := [{ name := some "Описание", parameters := [] }] }).brand = "" :=
  c6_brand_default _ itemWithDiscount (by decide)

/-! ## C1 — per-item failure isolation -/

/-- When every detail fetch in a list succeeds, no item is dropped: the
filtered result has one record per item. -/
theorem length_filterMap_fetch_brand (fd : Item → Except Err DetailData)
    (l : List Item) (h : ∀ i ∈ l, ∃ d, fd i = .ok d) :
    (l.filterMap (fetch_brand fd)).length = l.length := by
  induction l with
  | nil => rfl
  | cons a l ih =>
    obtain ⟨d, hd⟩ := h a (by simp)
    have hsome : fetch_brand fd a = some (buildRecord a d) := by
      simp [fetch_brand, hd]
    rw [List.filterMap_cons_some hsome]
    simp [ih fun i hi => h i (by simp [hi])]

/-- C1: a failing detail fetch for one item drops exactly that item —
`enrich` returns the same records as if the failing item were removed
from the input, and when every other item's fetch succeeds the result has
exactly one record per other item.  `enrich` itself is a total function:
the caught per-item exception (line 103) never escapes. -/
theorem c1_failure_isolation (fd : Item → Except Err DetailData)
    (pre post : List Item) (bad : Item)
    (hok : ∀ i ∈ pre ++ post, ∃ d, fd i = .ok d)
    (hbad : ∃ e, fd bad = .error e) :
    enrich_goods_with_brands fd (pre ++ bad :: post) =
      enrich_goods_with_brands fd (pre ++ post) ∧
    (enrich_goods_with_brands fd (pre ++ bad :: post)).length =
      pre.length + post.length := by
  obtain ⟨e, he⟩ := hbad
  have hbadnone : fetch_brand fd bad = none := by simp [fetch_brand, he]
  have hsplit : enrich_goods_with_brands fd (pre ++ bad :: post) =
      pre.filterMap (fetch_brand fd) ++ post.filterMap (fetch_brand fd) := by
    rw [enrich_eq_filterMap, List.filterMap_append,
      List.filterMap_cons_none hbadnone]
  have hpre : ∀ i ∈ pre, ∃ d, fd i = .ok d :=
    fun i hi => hok i (by simp [hi])
  have hpost : ∀ i ∈ post, ∃ d, fd i = .ok d :=
    fun i hi => hok i (by simp [hi])
  constructor
  · rw [hsplit, enrich_eq_filterMap, List.filterMap_append]
  · rw [hsplit, List.length_append, length_filterMap_fetch_brand fd pre hpre,
      length_filterMap_fetch_brand fd post hpost]

/-- Items used by the concrete failure-isolation scenario. -/
def wItem (n : Nat) : Item :=
  { id := toString n, name := "item", price := 100,
    promotion := { oldPrice := none, discountPercent := none } }

/-- A detail fetcher that always fails for item 3 and succeeds for every
other item. -/
def failOnThird : Item → Except Err DetailData :=
  fun i => if i.id = "3" then .error "network failure" else .ok emptyDetail

/-- Witness for C1: 5 items where only item 3's detail fetch fails —
`enrich` returns exactly the 4 records of the other items. -/
theorem c1_failure_isolation_witness :
    (enrich_goods_with_brands failOnThird
      ([wItem 1, wItem 2] ++ wItem 3 :: [wItem 4, wItem 5])).length = 2 + 2 :=
  (c1_failure_isolation failOnThird [wItem 1, wItem 2] [wItem 4, wItem 5]
    (wItem 3)
    (by
      intro i hi
      refine ⟨emptyDetail, ?_⟩
      fin_cases hi <;> rfl)
    ⟨"network failure", rfl⟩).2

/-! ## C10 — order preservation -/

/-- A `filterMap`'s output, rewrapped in `some`, is an order-preserving
subsequence of the raw per-item results. -/
theorem filterMap_map_some_sublist (f : Item → Option Record) :
    ∀ l : List Item, ((l.filterMap f).map some).Sublist (l.map f) := by
  intro l
  induction l with
  | nil => simp
  | cons a l ih =>
    cases hf : f a with
    | none =>
      rw [List.filterMap_cons_none hf, List.map_cons, hf]
      exact ih.cons none
    | some b =>
      rw [List.filterMap_cons_some hf, List.map_cons, List.map_cons, hf]
      exact ih.cons₂ (some b)

/-- C10: the enriched records come back in the same relative order as
their input listings: `_enrich_goods_with_brands` is the `filterMap` of
the per-item result over the input list (`asyncio.gather` keeps
task-submission order, line 65), and the output, rewrapped in `some`, is
an order-preserving subsequence of the per-item result list. -/
theorem c10_order_preservation (fd : Item → Except Err DetailData)
    (items : List Item) :
    enrich_goods_with_brands fd items = items.filterMap (fetch_brand fd) ∧
    ((enrich_goods_with_brands fd items).map some).Sublist
      (items.map (fetch_brand fd)) := by
  refine ⟨enrich_eq_filterMap fd items, ?_⟩
  rw [enrich_eq_filterMap fd items]
  exact filterMap_map_some_sublist (fetch_brand fd) items

/-! ## C2 — pagination accumulation -/

/-- A server that answers the k-th request with the k-th entry of a fixed
page list (and an empty final page beyond it, never reached in the
scenarios below). -/
def serverOfPages (pages : List Page) : Nat → Except Err Page :=
  fun k => .ok (pages.getD k { items := [], hasMore := false })

/-- One loop iteration on a failed page request. -/
theorem fetchGoodsLoop_step_error (server : Nat → Except Err Page)
    (limit fuel k off : Nat) (e : Err) (hk : server k = .error e) :
    fetchGoodsLoop server limit (fuel + 1) k off = some (.error e) := by
  simp [fetchGoodsLoop, hk]

/-- One loop iteration on a page whose continuation flag is false. -/
theorem fetchGoodsLoop_step_false (server : Nat → Except Err Page)
    (limit fuel k off : Nat) (p : Page) (hk : server k = .ok p)
    (hp : p.hasMore = false) :
    fetchGoodsLoop server limit (fuel + 1) k off =
      some (.ok (p.items, [off])) := by
  simp [fetchGoodsLoop, hk, hp]

/-- One loop iteration on a page whose continuation flag is true. -/
theorem fetchGoodsLoop_step_true (server : Nat → Except Err Page)
    (limit fuel k off : Nat) (p : Page) (hk : server k = .ok p)
    (hp : p.hasMore = true) :
    fetchGoodsLoop server limit (fuel + 1) k off =
      match fetchGoodsLoop server limit fuel (k + 1) (off + limit) with
      | none => none
      | some (.error e) => some (.error e)
      | some (.ok (its, offs)) => some (.ok (p.items ++ its, off :: offs)) := by
  simp [fetchGoodsLoop, hk, hp]

/-- The offset trace of `n + 1` serial requests starting at `off`. -/
theorem range_offsets_succ (n limit off : Nat) :
    (List.range (n + 1)).map (fun i => off + i * limit) =
      off :: (List.range n).map (fun i => off + limit + i * limit) := by
  rw [List.range_succ_eq_map, List.map_cons, List.map_map]
  congr 1
  · simp
  · refine List.map_congr_left fun i _ => ?_
    simp only [Function.comp_apply, Nat.succ_eq_add_one]
    ring

/-- Completeness of the pagination loop: if the server answers requests
`k, k+1, ...` with the pages of `ps`, every page before the last reports
`hasMore = true` and the last reports `hasMore = false`, then the loop
started at offset `off` makes exactly `ps.length` requests, at offsets
`off, off + limit, ...`, and accumulates the concatenation of the pages'
items. -/
theorem fetchGoodsLoop_complete (limit : Nat) :
    ∀ (ps : List Page) (server : Nat → Except Err Page) (k off : Nat),
    (∀ j (hj : j < ps.length), server (k + j) = .ok (ps.get ⟨j, hj⟩)) →
    (∀ j (hj : j + 1 < ps.length),
      (ps.get ⟨j, Nat.lt_of_succ_lt hj⟩).hasMore = true) →
    ∀ hne : ps ≠ [], (ps.getLast hne).hasMore = false →
    fetchGoodsLoop server limit ps.length k off =
      some (.ok ((ps.map Page.items).flatten,
        (List.range ps.length).map (fun i => off + i * limit))) := by
  intro ps
  induction ps with
  | nil => intro _ _ _ _ _ hne _; exact absurd rfl hne
  | cons p ps ih =>
    intro server k off hserver hpre hne hlast
    have hk : server k = .ok p := by
      have := hserver 0 (by simp)
      simpa using this
    cases ps with
    | nil =>
      have hfalse : p.hasMore = false := by simpa using hlast
      rw [List.length_singleton,
        fetchGoodsLoop_step_false server limit 0 k off p hk hfalse]
      simp [show List.range 1 = [0] from rfl]
    | cons q qs =>
      have htrue : p.hasMore = true := hpre 0 (by simp)
      have hrec := ih server (k + 1) (off + limit)
        (fun j hj => by
          have := hserver (j + 1) (by simpa using Nat.succ_lt_succ hj)
          simpa [Nat.add_assoc, Nat.add_comm 1 j] using this)
        (fun j hj => by
          have := hpre (j + 1) (by simpa using Nat.succ_lt_succ hj)
          simpa using this)
        (by simp)
        (by
          have hgl : (p :: q :: qs).getLast hne = (q :: qs).getLast (by simp) :=
            List.getLast_cons (by simp)
          rw [hgl] at hlast
          exact hlast)
      rw [List.length_cons,
        fetchGoodsLoop_step_true server limit (q :: qs).length k off p hk htrue,
        hrec, range_offsets_succ]
      simp

/-- `serverOfPages` answers request `j` with the j-th page whenever `j` is
within the page list. -/
theorem serverOfPages_spec (pages : List Page) (j : Nat) (hj : j < pages.length) :
    serverOfPages pages j = .ok (pages.get ⟨j, hj⟩) := by
  simp [serverOfPages, List.getD_eq_getElem?_getD, List.getElem?_eq_getElem hj,
    List.get_eq_getElem]

/-- C2: a run against any finite page sequence whose non-final pages all
report `hasMore = true` and whose final page reports `hasMore = false`
issues exactly one request per page, at offsets `0, 50, 100, ...`, and
returns the concatenation of the pages' item lists. -/
theorem c2_pagination (pages : List Page) (hne : pages ≠ [])
    (hpre : ∀ j (hj : j + 1 < pages.length),
      (pages.get ⟨j, Nat.lt_of_succ_lt hj⟩).hasMore = true)
    (hlast : (pages.getLast hne).hasMore = false) :
    fetchGoodsLoop (serverOfPages pages) 50 pages.length 0 0 =
      some (.ok ((pages.map Page.items).flatten,
        (List.range pages.length).map (fun i => i * 50))) := by
  have h := fetchGoodsLoop_complete 50 pages (serverOfPages pages) 0 0
    (fun j hj => by rw [Nat.zero_add]; exact serverOfPages_spec pages j hj)
    hpre hne hlast
  simpa using h

/-- An item with a distinct id, used to populate mocked pages. -/
def testItem (n : Nat) : Item :=
  { id := toString n, name := "g", price := 100,
    promotion := { oldPrice := none, discountPercent := none } }

/-- The mocked page sequence of the spec's pagination scenario: sizes
50, 50, 13 with `hasMore = [true, true, false]`. -/
def testPages : List Page :=
  [ { items := (List.range 50).map testItem, hasMore := true },
    { items := (List.range 50).map (fun n => testItem (50 + n)), hasMore := true },
    { items := (List.range 13).map (fun n => testItem (100 + n)), hasMore := false } ]

/-- Witness for C2: on the mocked 3-page sequence the loop issues exactly
3 requests with offsets 0, 50, 100 and returns 113 items. -/
theorem c2_pagination_witness :
    fetchGoodsLoop (serverOfPages testPages) 50 3 0 0 =
      some (.ok ((testPages.map Page.items).flatten, [0, 50, 100])) ∧
    ((testPages.map Page.items).flatten).length = 113 := by
  constructor
  · have h := c2_pagination testPages (by simp [testPages])
      (by
        intro j hj
        have h2 : j < 2 := by
          simp only [testPages, List.length_cons, List.length_nil] at hj
          omega
        interval_cases j <;> rfl)
      (by rfl)
    have h3 : testPages.length = 3 := rfl
    have hoffs : (List.range 3).map (fun i => i * 50) = [0, 50, 100] := rfl
    rw [h3, hoffs] at h
    exact h
  · rfl

/-! ## C8 — termination of the pagination loop -/

/-- Against a server whose every page reports `hasMore = true`, the loop
never terminates: no amount of fuel produces a result. -/
theorem fetchGoodsLoop_allTrue_none (s : Nat → Page)
    (h : ∀ k, (s k).hasMore = true) :
    ∀ fuel k off, fetchGoodsLoop (fun i => .ok (s i)) 50 fuel k off = none := by
  intro fuel
  induction fuel with
  | zero => intro k off; rfl
  | succ fuel ih =>
    intro k off
    rw [fetchGoodsLoop_step_true (fun i => .ok (s i)) 50 fuel k off (s k) rfl
      (h k), ih (k + 1) (off + 50)]

/-- If the page answered to request `k + j` reports `hasMore = false`,
then `j + 1` units of fuel suffice for the loop started at request `k` to
terminate. -/
theorem fetchGoodsLoop_false_terminates (s : Nat → Page) :
    ∀ (j k off : Nat), (s (k + j)).hasMore = false →
    ∃ r, fetchGoodsLoop (fun i => .ok (s i)) 50 (j + 1) k off = some r := by
  intro j
  induction j with
  | zero =>
    intro k off h
    refine ⟨.ok ((s k).items, [off]), ?_⟩
    exact fetchGoodsLoop_step_false _ 50 0 k off (s k) rfl (by simpa using h)
  | succ j ih =>
    intro k off h
    by_cases hk : (s k).hasMore
    · obtain ⟨r, hr⟩ := ih (k + 1) (off + 50)
        (by
          have he : k + 1 + j = k + (j + 1) := by omega
          rw [he]
          exact h)
      rcases r with e | ⟨its, offs⟩
      · refine ⟨.error e, ?_⟩
        rw [fetchGoodsLoop_step_true _ 50 (j + 1) k off (s k) rfl hk, hr]
      · refine ⟨.ok ((s k).items ++ its, off :: offs), ?_⟩
        rw [fetchGoodsLoop_step_true _ 50 (j + 1) k off (s k) rfl hk, hr]
    · exact ⟨.ok ((s k).items, [off]),
        fetchGoodsLoop_step_false _ 50 (j + 1) k off (s k) rfl
          (by simpa using hk)⟩

/-- A 2-page sequence whose first page already reports `hasMore = false`. -/
def twoStopPages : List Page :=
  [ { items := [], hasMore := false }, { items := [], hasMore := false } ]

/-- C8 counterexample: `twoStopPages` is a finite page sequence of length
2 whose last page reports `hasMore = false`, yet the loop terminates after
a single request (offset trace `[0]`, not 2 requests): the loop stops at
the first false flag, not at the end of the server's sequence. -/
theorem c8_counterexample :
    twoStopPages.length = 2 ∧
    twoStopPages.getLast? = some { items := [], hasMore := false } ∧
    fetchGoodsLoop (serverOfPages twoStopPages) 50 2 0 0 =
      some (.ok ([], [0])) ∧
    ([0] : List Nat).length ≠ 2 := by
  refine ⟨rfl, rfl, rfl, by decide⟩

/-- C8 (amended): the pagination loop terminates iff some requested page
eventually reports `hasMore = false` — in particular a server that always
reports `hasMore = true` makes the loop run forever, with no defensive
bound — and on every finite page sequence whose non-final pages report
`hasMore = true` and whose final page reports `hasMore = false` it
terminates after exactly one request per page. -/
theorem c8_termination :
    (∀ s : Nat → Page,
      (∃ fuel r, fetchGoodsLoop (fun i => .ok (s i)) 50 fuel 0 0 = some r) ↔
        (∃ k, (s k).hasMore = false)) ∧
    (∀ (pages : List Page) (hne : pages ≠ []),
      (∀ j (hj : j + 1 < pages.length),
        (pages.get ⟨j, Nat.lt_of_succ_lt hj⟩).hasMore = true) →
      (pages.getLast hne).hasMore = false →
      fetchGoodsLoop (serverOfPages pages) 50 pages.length 0 0 =
        some (.ok ((pages.map Page.items).flatten,
          (List.range pages.length).map (fun i => i * 50))) ∧
      ((List.range pages.length).map (fun i => i * 50)).length =
        pages.length) := by
  constructor
  · intro s
    constructor
    · rintro ⟨fuel, r, hr⟩
      by_contra hno
      push_neg at hno
      have hall : ∀ k, (s k).hasMore = true := by
        intro k
        cases hmk : (s k).hasMore with
        | false => exact absurd hmk (hno k)
        | true => rfl
      rw [fetchGoodsLoop_allTrue_none s hall fuel 0 0] at hr
      exact Option.noConfusion hr
    · rintro ⟨k, hk⟩
      obtain ⟨r, hr⟩ := fetchGoodsLoop_false_terminates s k 0 0
        (by simpa using hk)
      exact ⟨k + 1, r, hr⟩
  · intro pages hne hpre hlast
    refine ⟨?_, by simp⟩
    have h := fetchGoodsLoop_complete 50 pages (serverOfPages pages) 0 0
      (fun j hj => by rw [Nat.zero_add]; exact serverOfPages_spec pages j hj)
      hpre hne hlast
    simpa using h

/-- A server that stops at the very first page. -/
def constFalsePage : Nat → Page := fun _ => { items := [], hasMore := false }

/-- Witness for C8: the single-page server terminates (iff direction, right
to left), and the mocked 3-page sequence finishes after exactly 3 requests. -/
theorem c8_termination_witness :
    (∃ fuel r,
      fetchGoodsLoop (fun i => .ok (constFalsePage i)) 50 fuel 0 0 = some r) ∧
    (fetchGoodsLoop (serverOfPages testPages) 50 testPages.length 0 0 =
      some (.ok ((testPages.map Page.items).flatten,
        (List.range testPages.length).map (fun i => i * 50))) ∧
      ((List.range testPages.length).map (fun i => i * 50)).length =
        testPages.length) := by
  constructor
  · exact (c8_termination.1 constFalsePage).mpr ⟨0, rfl⟩
  · exact c8_termination.2 testPages (by simp [testPages])
      (by
        intro j hj
        have h2 : j < 2 := by
          simp only [testPages, List.length_cons, List.length_nil] at hj
          omega
        interval_cases j <;> rfl)
      (by rfl)

/-! ## C5 — page failure is fatal -/

/-- If requests `k, ..., k + n - 1` all succeed with `hasMore = true` and
request `k + n` fails, the loop result is exactly that error: no partial
item list survives. -/
theorem fetchGoodsLoop_error_propagates (server : Nat → Except Err Page)
    (e : Err) :
    ∀ (n fuel k off : Nat),
    (∀ j, j < n → ∃ p, server (k + j) = .ok p ∧ p.hasMore = true) →
    server (k + n) = .error e → n < fuel →
    fetchGoodsLoop server 50 fuel k off = some (.error e) := by
  intro n
  induction n with
  | zero =>
    intro fuel k off _ herr hfuel
    obtain ⟨f, rfl⟩ : ∃ f, fuel = f + 1 := ⟨fuel - 1, by omega⟩
    exact fetchGoodsLoop_step_error server 50 f k off e (by simpa using herr)
  | succ n ih =>
    intro fuel k off hok herr hfuel
    obtain ⟨f, rfl⟩ : ∃ f, fuel = f + 1 := ⟨fuel - 1, by omega⟩
    obtain ⟨p, hp, hpm⟩ := hok 0 (by omega)
    have hk : server k = .ok p := by simpa using hp
    rw [fetchGoodsLoop_step_true server 50 f k off p hk hpm,
      ih f (k + 1) (off + 50)
        (fun j hj => by
          obtain ⟨q, hq, hqm⟩ := hok (j + 1) (by omega)
          refine ⟨q, ?_, hqm⟩
          have he : k + 1 + j = k + (j + 1) := by omega
          rw [he]
          exact hq)
        (by
          have he : k + 1 + n = k + (n + 1) := by omega
          rw [he]
          exact herr)
        (by omega)]

/-- A loop run against a server all of whose page requests succeed can
only produce an `ok` result, whatever fuel it is given. -/
theorem fetchGoodsLoop_pure_ok (s : Nat → Page) :
    ∀ (fuel k off : Nat) (r : Except Err (List Item × List Nat)),
    fetchGoodsLoop (fun i => .ok (s i)) 50 fuel k off = some r →
    ∃ v, r = .ok v := by
  intro fuel
  induction fuel with
  | zero =>
    intro k off r h
    exact absurd h (by simp [fetchGoodsLoop])
  | succ fuel ih =>
    intro k off r h
    by_cases hm : (s k).hasMore
    · rw [fetchGoodsLoop_step_true _ 50 fuel k off (s k) rfl hm] at h
      cases hrec : fetchGoodsLoop (fun i => .ok (s i)) 50 fuel (k + 1) (off + 50) with
      | none =>
        rw [hrec] at h
        exact absurd h (by simp)
      | some rr =>
        rw [hrec] at h
        obtain ⟨v, rfl⟩ := ih (k + 1) (off + 50) rr hrec
        obtain ⟨its, offs⟩ := v
        exact ⟨_, (Option.some_inj.mp h).symm⟩
    · rw [fetchGoodsLoop_step_false _ 50 fuel k off (s k) rfl
        (by simpa using hm)] at h
      exact ⟨_, (Option.some_inj.mp h).symm⟩

/-- C5: a non-success status or transport error on any page request that
is actually reached aborts the whole category fetch — both
`fetch_goods_by_category` and `run` yield exactly that error, never a
partial item list — whereas per-item enrichment failures never produce an
error: with all page requests succeeding, a terminating `run` returns
`ok` for every per-item detail fetcher whatsoever. -/
theorem c5_page_failure_fatal :
    (∀ (server : Nat → Except Err Page) (fd : Item → Except Err DetailData)
      (n fuel : Nat) (e : Err),
      (∀ j, j < n → ∃ p, server j = .ok p ∧ p.hasMore = true) →
      server n = .error e → n < fuel →
      fetch_goods_by_category server fd fuel = some (.error e) ∧
      magnitParserRun server fd fuel = some (.error e)) ∧
    (∀ (s : Nat → Page) (fd : Item → Except Err DetailData) (fuel : Nat)
      (r : Except Err (List Record)),
      magnitParserRun (fun i => .ok (s i)) fd fuel = some r →
      ∃ recs, r = .ok recs) := by
  constructor
  · intro server fd n fuel e hok herr hfuel
    have hloop : fetchGoodsLoop server 50 fuel 0 0 = some (.error e) :=
      fetchGoodsLoop_error_propagates server e n fuel 0 0
        (fun j hj => by simpa using hok j hj) (by simpa using herr) hfuel
    refine ⟨?_, ?_⟩
    · simp [fetch_goods_by_category, hloop]
    · simp [magnitParserRun, fetch_goods_by_category, hloop]
  · intro s fd fuel r h
    cases hloop : fetchGoodsLoop (fun i => .ok (s i)) 50 fuel 0 0 with
    | none =>
      rw [show magnitParserRun (fun i => .ok (s i)) fd fuel = none by
        simp [magnitParserRun, fetch_goods_by_category, hloop]] at h
      exact absurd h (by simp)
    | some rr =>
      obtain ⟨⟨its, offs⟩, rfl⟩ := fetchGoodsLoop_pure_ok s fuel 0 0 rr hloop
      rw [show magnitParserRun (fun i => .ok (s i)) fd fuel =
          some (.ok (enrich_goods_with_brands fd its)) by
        simp [magnitParserRun, fetch_goods_by_category, hloop]] at h
      exact ⟨_, (Option.some_inj.mp h).symm⟩

/-- A server whose first page succeeds with `hasMore = true` and whose
second request fails with a non-success status. -/
def failServer : Nat → Except Err Page :=
  fun k => if k = 0 then .ok { items := [], hasMore := true }
    else .error "HTTP 500"

/-- Witness for C5: against `failServer`, `run` surfaces exactly the page
error. -/
theorem c5_page_failure_fatal_witness :
    magnitParserRun failServer (fun _ => .ok emptyDetail) 2 =
      some (.error "HTTP 500") :=
  (c5_page_failure_fatal.1 failServer (fun _ => .ok emptyDetail) 1 2 "HTTP 500"
    (fun j hj => by
      interval_cases j
      exact ⟨{ items := [], hasMore := true }, rfl, rfl⟩)
    rfl (by omega)).2

/-! ## C9 — concurrency bound -/

/-- Counting in-flight tasks distributes over `cons`. -/
theorem countInflight_cons (a : Phase) (l : List Phase) :
    countInflight (a :: l) =
      (if a = Phase.inflight then 1 else 0) + countInflight l := by
  simp only [countInflight, List.filter_cons]
  by_cases ha : a = Phase.inflight
  · simp [ha, Nat.add_comm]
  · simp [ha]

/-- Starting a pending task raises the in-flight count by one. -/
theorem countInflight_set_start :
    ∀ (l : List Phase) (i : Nat), l.get? i = some Phase.pending →
    countInflight (l.set i Phase.inflight) = countInflight l + 1 := by
  intro l
  induction l with
  | nil => intro i h; simp at h
  | cons a l ih =>
    intro i h
    cases i with
    | zero =>
      have ha : a = Phase.pending := by simpa using h
      subst ha
      rw [List.set_cons_zero, countInflight_cons, countInflight_cons]
      simp [Nat.add_comm]
    | succ i =>
      have h' : l.get? i = some Phase.pending := by simpa using h
      rw [List.set_cons_succ, countInflight_cons, countInflight_cons, ih i h']
      omega

/-- Finishing an in-flight task lowers the in-flight count by one. -/
theorem countInflight_set_finish :
    ∀ (l : List Phase) (i : Nat), l.get? i = some Phase.inflight →
    countInflight (l.set i Phase.done) + 1 = countInflight l := by
  intro l
  induction l with
  | nil => intro i h; simp at h
  | cons a l ih =>
    intro i h
    cases i with
    | zero =>
      have ha : a = Phase.inflight := by simpa using h
      subst ha
      rw [List.set_cons_zero, countInflight_cons, countInflight_cons]
      simp [Nat.add_comm]
    | succ i =>
      have h' : l.get? i = some Phase.inflight := by simpa using h
      rw [List.set_cons_succ, countInflight_cons, countInflight_cons]
      have := ih i h'
      omega

/-- Slot accounting invariant: in every reachable state of an enrichment
batch the in-flight requests and the free slots together account for all
`maxConcurrent` semaphore slots. -/
theorem enrichStep_invariant (n : Nat) (s t : EnrichState)
    (hst : EnrichStep s t) (hs : inflightCount s + s.avail = n) :
    inflightCount t + t.avail = n := by
  cases hst with
  | acquireStart i hp ha =>
    have hc := countInflight_set_start s.tasks i hp
    simp only [inflightCount] at hs ⊢
    rw [hc]
    omega
  | finish i hp =>
    have hc := countInflight_set_finish s.tasks i hp
    simp only [inflightCount] at hs ⊢
    omega

/-- Slot accounting holds in every reachable state of an enrichment
batch. -/
theorem enrichReach_invariant (n m : Nat) (s : EnrichState)
    (h : EnrichReach (enrichInit n m) s) :
    inflightCount s + s.avail = n := by
  induction h with
  | refl =>
    simp [enrichInit, inflightCount, countInflight, List.filter_replicate]
  | tail hreach hstep ih =>
    exact enrichStep_invariant n _ _ hstep ih

/-- C9: during one enrichment batch with semaphore bound `n`, no reachable
scheduler state has more than `n` detail requests simultaneously in
flight; a task enters flight only through `acquireStart`, which demands a
free slot, and a slot returns only through `finish`, the completion
(success or failure) of an in-flight task. -/
theorem c9_concurrency_bound (n m : Nat) (s : EnrichState)
    (h : EnrichReach (enrichInit n m) s) :
    inflightCount s ≤ n := by
  have := enrichReach_invariant n m s h
  omega

/-- Witness for C9: with bound 3 and 2 tasks, the state after one task has
started (one slot taken) is reachable and respects the bound. -/
theorem c9_concurrency_bound_witness :
    inflightCount ⟨2, [Phase.inflight, Phase.pending]⟩ ≤ 3 :=
  c9_concurrency_bound 3 2 ⟨2, [Phase.inflight, Phase.pending]⟩
    (EnrichReach.tail EnrichReach.refl
      (EnrichStep.acquireStart (enrichInit 3 2) 0 rfl (by decide)))

/-! ## C7 — invalid concurrency bound -/

/-- With a zero-valued semaphore no scheduling step is possible: no task
can acquire a slot (none is free) and no task is in flight to finish. -/
theorem noStep_from_zero (m : Nat) (t : EnrichState)
    (h : EnrichStep (enrichInit 0 m) t) : False := by
  cases h with
  | acquireStart i hp ha =>
    simp [enrichInit] at ha
  | finish i hp =>
    rw [enrichInit] at hp
    simp only [List.get?_eq_getElem?, List.getElem?_replicate] at hp
    split at hp
    · exact Phase.noConfusion (Option.some_inj.mp hp)
    · exact Option.noConfusion hp

/-- C7 (amended): a negative `max_concurrent_requests` makes construction
fail — `asyncio.Semaphore` raises before any network activity — but the
non-positive value `0` is accepted at construction; under it no detail
request can ever start (every task blocks on the semaphore forever), so
an enrichment batch of any size never has a request in flight. -/
theorem c7_concurrency_config :
    (∀ (sc ci : String) (v : Int), v < 0 →
      magnitAPINew sc ci v = .error "Semaphore initial value must be >= 0") ∧
    (∀ sc ci : String, magnitAPINew sc ci 0 =
      .ok { store_code := sc, city_id := ci, semValue := 0 }) ∧
    (∀ (m : Nat) (s : EnrichState), EnrichReach (enrichInit 0 m) s →
      s = enrichInit 0 m ∧ inflightCount s = 0) := by
  refine ⟨fun sc ci v hv => ?_, fun sc ci => ?_, fun m s h => ?_⟩
  · simp [magnitAPINew, semaphoreNew, hv]
  · simp [magnitAPINew, semaphoreNew]
  · induction h with
    | refl =>
      refine ⟨rfl, ?_⟩
      simp [enrichInit, inflightCount, countInflight, List.filter_replicate]
    | tail hreach hstep ih =>
      rcases ih with ⟨h1, _⟩
      rw [h1] at hstep
      exact (noStep_from_zero m _ hstep).elim

/-- C7 counterexample: constructing the client with the non-positive
bound `0` succeeds — `asyncio.Semaphore` only rejects negative values —
so construction-time failure does not cover all non-positive bounds. -/
theorem c7_counterexample :
    magnitAPINew "777022" "1" 0 =
      .ok { store_code := "777022", city_id := "1", semValue := 0 } := rfl

/-- Witness for C7: a negative bound fails at construction, and with the
zero bound no reachable state of a 4-item batch has any request in
flight. -/
theorem c7_concurrency_config_witness :
    magnitAPINew "777022" "1" (-5) =
      .error "Semaphore initial value must be >= 0" ∧
    inflightCount (enrichInit 0 4) = 0 :=
  ⟨c7_concurrency_config.1 "777022" "1" (-5) (by decide),
    (c7_concurrency_config.2.2 4 (enrichInit 0 4) EnrichReach.refl).2⟩
